import Mathlib

/-!
Verification of the documents-and-editors state-diffing subsystem:
snapshot computation, delta diffing, state tracking, delta dispatch and
the extension-host acceptance contract.

The embedding follows the TypeScript sources:
mainThreadDocumentsAndEditors (snapshot, delta computer, state tracker,
dispatcher), extHostEditors and extHostDocuments.  JavaScript strings are
modelled as Lean strings; the tri-state `undefined` / `null` / string
values that flow through the active-editor fields are modelled by an
explicit three-constructor type so that strict equality (`===`) keeps its
JavaScript meaning.
-/

/-- Comparison of two character lists, character by character.  This is the
kernel-computable form of the lexicographic string order used by the
source's `compare` helper from vs/base/common/strings, which returns
negative, zero or positive according to `a < b`, `a === b`, `a > b`. -/
def charListCmp : List Char → List Char → Ordering
  | [], [] => Ordering.eq
  | [], _ :: _ => Ordering.lt
  | _ :: _, [] => Ordering.gt
  | a :: as, b :: bs =>
    if a < b then Ordering.lt
    else if b < a then Ordering.gt
    else charListCmp as bs

/-- Modelled from the spec: the string comparator of vs/base/common/strings
(`compare`), which orders strings lexicographically; the file itself is not
part of the sources, only its behaviour (`a < b ? -1 : a > b ? 1 : 0`) is
described, so we embed plain lexicographic comparison on the characters. -/
def strCompare (a b : String) : Ordering :=
  charListCmp a.data b.data

/-- A text model (document), identified by its URI string and carrying the
too-large-for-rich-mode flag that the snapshot filter consults. -/
structure Model where
  uri : String
  isTooLargeForHavingARichMode : Bool
deriving DecidableEq, Repr

/-- A code editor as listed by the code-editor service: its id, the model it
currently displays (if any) and whether it has input focus. -/
structure Editor where
  id : String
  model : Option Model
  focused : Bool
deriving DecidableEq, Repr

/-- The control backing the active workbench editor: a code editor, a diff
editor (whose modified side is a code editor), or something else. -/
inductive WorkbenchControl where
  | codeEditor (e : Editor)
  | diffEditor (modified : Editor)
  | other
deriving DecidableEq, Repr

/-- Tri-state JavaScript value for the active-editor fields: `undefined`,
`null`, or an id string.  Strict equality (`===`) distinguishes all three. -/
inductive JSString where
  | undef
  | null
  | str (s : String)
deriving DecidableEq, Repr

/-- An editor paired with the model it displays (class EditorAndModel). -/
structure EditorAndModel where
  editor : Editor
  document : Model
deriving DecidableEq, Repr

/-- The composed binding id from the EditorAndModel constructor:
the editor id and the document URI joined by a comma. -/
def EditorAndModel.id (e : EditorAndModel) : String :=
  e.editor.id ++ "," ++ e.document.uri

/-- cmp.compareModels: order models by URI string. -/
def compareModels (a b : Model) : Ordering :=
  strCompare a.uri b.uri

/-- cmp.compareEditors: order bindings by editor id, ties broken by
document URI. -/
def compareEditors (a b : EditorAndModel) : Ordering :=
  let ret := strCompare a.editor.id b.editor.id
  if ret = Ordering.eq then strCompare a.document.uri b.document.uri else ret

/-- Key of a binding for comparator purposes: editor id, then document URI,
ordered lexicographically. -/
def editorKey (e : EditorAndModel) : Lex (String × String) :=
  toLex (e.editor.id, e.document.uri)

/-- Modelled from the spec: the sorted-merge diff `delta` of
vs/base/common/arrays, which is not among the sources.  Spec section 4.2:
walk both sorted sequences with two cursors; when `old` is smaller the item
is removed and the old cursor advances, when `new` is smaller the item is
added and the new cursor advances, when they compare equal both advance;
once one side is exhausted the remainder of the other side is removed
respectively added.  The first component is `removed`, the second `added`;
the loop is written with a structurally recursive inner helper so that it
evaluates by reduction. -/
def deltaMergeGo {α : Type} (cmp : α → α → Ordering) (a : α) (as : List α)
    (rec : List α → List α × List α) : List α → List α × List α
  | [] => (a :: as, [])
  | b :: bs =>
    match cmp a b with
    | Ordering.eq => rec bs
    | Ordering.lt =>
      let r := rec (b :: bs)
      (a :: r.1, r.2)
    | Ordering.gt =>
      let r := deltaMergeGo cmp a as rec bs
      (r.1, b :: r.2)

def deltaMerge {α : Type} (cmp : α → α → Ordering) : List α → List α → List α × List α
  | [], after => ([], after)
  | a :: as, after => deltaMergeGo cmp a as (deltaMerge cmp as) after

/-- The delta between two snapshots (class DocumentAndEditorStateDelta):
removed and added documents, removed and added editor bindings, and the
old and new active-editor values. -/
structure DocumentAndEditorStateDelta where
  removedDocuments : List Model
  addedDocuments : List Model
  removedEditors : List EditorAndModel
  addedEditors : List EditorAndModel
  oldActiveEditor : JSString
  newActiveEditor : JSString
deriving DecidableEq, Repr

/-- The isEmpty flag computed in the delta's constructor: all four sequences
empty and the two active values strictly equal. -/
def DocumentAndEditorStateDelta.isEmpty (d : DocumentAndEditorStateDelta) : Bool :=
  d.removedDocuments.length == 0
    && d.addedDocuments.length == 0
    && d.removedEditors.length == 0
    && d.addedEditors.length == 0
    && d.oldActiveEditor == d.newActiveEditor

/-- A snapshot (class DocumentAndEditorState): documents, editor bindings
and the active-editor value.  The TypeScript constructor sorts both
sequences with the comparators; `DocumentAndEditorState.make` below plays
the constructor, while this structure holds the resulting fields. -/
structure DocumentAndEditorState where
  documents : List Model
  editors : List EditorAndModel
  activeEditor : JSString
deriving DecidableEq, Repr

/-- Sorting as performed by the snapshot constructor via Array.sort with an
ordering comparator: the result is the input sequence arranged so that no
element compares greater than a later one. -/
def sortByCmp {α : Type} (cmp : α → α → Ordering) [DecidableEq α] (l : List α) : List α :=
  List.insertionSort (fun a b => cmp a b ≠ Ordering.gt) l

/-- The DocumentAndEditorState constructor: sorts documents by URI and
editors by id then URI, and stores the active-editor value. -/
def DocumentAndEditorState.make (documents : List Model)
    (editors : List EditorAndModel) (activeEditor : JSString) :
    DocumentAndEditorState :=
  { documents := sortByCmp compareModels documents
    editors := sortByCmp compareEditors editors
    activeEditor := activeEditor }

/-- DocumentAndEditorState.compute: with no prior snapshot everything of the
new snapshot is added and the new active value is reported; otherwise both
sequences are diffed with the sorted merge and the active transition is
reported as-is unless old and new are strictly equal, in which case both
sides are `undefined`. -/
def DocumentAndEditorState.compute (before : Option DocumentAndEditorState)
    (after : DocumentAndEditorState) : DocumentAndEditorStateDelta :=
  match before with
  | none =>
    { removedDocuments := []
      addedDocuments := after.documents
      removedEditors := []
      addedEditors := after.editors
      oldActiveEditor := JSString.undef
      newActiveEditor := after.activeEditor }
  | some b =>
    let documentDelta := deltaMerge compareModels b.documents after.documents
    let editorDelta := deltaMerge compareEditors b.editors after.editors
    let oldActiveEditor :=
      if b.activeEditor ≠ after.activeEditor then b.activeEditor else JSString.undef
    let newActiveEditor :=
      if b.activeEditor ≠ after.activeEditor then after.activeEditor else JSString.undef
    { removedDocuments := documentDelta.1
      addedDocuments := documentDelta.2
      removedEditors := editorDelta.1
      addedEditors := editorDelta.2
      oldActiveEditor := oldActiveEditor
      newActiveEditor := newActiveEditor }

/-- The externally observable world the tracker enumerates on each
recomputation: all models of the model service, all code editors of the
code-editor service, and the active workbench editor's control. -/
structure WorldState where
  models : List Model
  codeEditors : List Editor
  activeWorkbenchEditor : Option WorkbenchControl
deriving Repr

/-- JavaScript truthiness test for the tri-state string value: `undefined`,
`null` and the empty string are falsy. -/
def jsFalsy : JSString → Bool
  | JSString.undef => true
  | JSString.null => true
  | JSString.str s => s == ""

/-- The editor loop of _updateState: keep each editor that has a model that
is not too large, pair it with its model, and remember the binding id of
the focused editor (a later focused editor overwrites an earlier one). -/
def scanEditors : List Editor → JSString → List EditorAndModel × JSString
  | [], act => ([], act)
  | e :: rest, act =>
    match e.model with
    | some m =>
      if m.isTooLargeForHavingARichMode then scanEditors rest act
      else
        let apiEditor : EditorAndModel := { editor := e, document := m }
        let act' := if e.focused then JSString.str apiEditor.id else act
        let r := scanEditors rest act'
        (apiEditor :: r.1, r.2)
    | none => scanEditors rest act

/-- The workbench-editor fallback of _updateState: if no scanned editor was
focused, take the active workbench editor's control, directly when it is a
code editor or through its modified side when it is a diff editor, and use
the id of the first scanned binding whose editor is that candidate. -/
def workbenchCandidate (w : WorldState) : Option Editor :=
  match w.activeWorkbenchEditor with
  | none => none
  | some (WorkbenchControl.codeEditor e) => some e
  | some (WorkbenchControl.diffEditor m) => some m
  | some WorkbenchControl.other => none

/-- Continuation of the fallback: with the candidate control in hand, the
loop over the scanned bindings takes the first whose editor is that very
object; without a candidate, or without a match, the active value stays. -/
def resolveActive (w : WorldState) (editors : List EditorAndModel)
    (act : JSString) : JSString :=
  if jsFalsy act then
    match workbenchCandidate w with
    | none => act
    | some candidate =>
      match editors.find? (fun b => b.editor == candidate) with
      | some b => JSString.str b.id
      | none => act
  else act

/-- The snapshot built by one run of _updateState: models filtered by the
too-large flag (the splice-while-iterating loop removes exactly the flagged
models, preserving order), the scanned editor bindings, and the resolved
active value, all passed through the sorting constructor.  The focus scan
starts from `null`, the initialisation of the activeEditor variable. -/
def newSnapshot (w : WorldState) : DocumentAndEditorState :=
  let models := w.models.filter (fun m => !m.isTooLargeForHavingARichMode)
  let scanned := scanEditors w.codeEditors JSString.null
  let act := resolveActive w scanned.1 scanned.2
  DocumentAndEditorState.make models scanned.1 act

/-- One run of _updateState over the stored snapshot: compute the new
snapshot, diff, and only when the delta is non-empty replace the stored
snapshot and fire the delta.  Returns the stored snapshot afterwards and
the fired delta, if any. -/
def updateState (cur : Option DocumentAndEditorState) (w : WorldState) :
    Option DocumentAndEditorState × Option DocumentAndEditorStateDelta :=
  let newState := newSnapshot w
  let d := DocumentAndEditorState.compute cur newState
  if d.isEmpty then (cur, none) else (some newState, some d)

/-- The wire payload handed to the extension-host proxy by _onDelta;
documents are projected to their URIs here since only identities matter for
the ordering and tolerance properties under study. -/
structure WirePayload where
  newActiveEditor : JSString
  removedDocuments : List String
  removedEditors : List String
  addedDocuments : List String
  addedEditors : List String
deriving DecidableEq, Repr

/-- Observable actions of the dispatcher while processing one delta. -/
inductive DispatchEvent where
  | addHandle (id : String)
  | disposeHandle (id : String)
  | sendWire (payload : WirePayload)
  | fireTextEditorRemove (ids : List String)
  | fireTextEditorAdd (ids : List String)
  | fireDocumentRemove (uris : List String)
  | fireDocumentAdd (uris : List String)
deriving DecidableEq, Repr

/-- The added-editors loop of _onDelta: for each added binding construct a
main-thread editor handle, store it in the registry under the binding id
(a plain object-property assignment) and collect it for reporting. -/
def processAdds : List String → List EditorAndModel →
    List String × List String × List DispatchEvent
  | reg, [] => (reg, [], [])
  | reg, b :: rest =>
    let reg' := if b.id ∈ reg then reg else reg ++ [b.id]
    let r := processAdds reg' rest
    (r.1, b.id :: r.2.1, DispatchEvent.addHandle b.id :: r.2.2)

/-- The removed-editors loop of _onDelta: for each removed binding look the
handle up; when present dispose it, delete the registry entry and collect
the id; when absent do nothing. -/
def processRemoves : List String → List EditorAndModel →
    List String × List String × List DispatchEvent
  | reg, [] => (reg, [], [])
  | reg, b :: rest =>
    if b.id ∈ reg then
      let reg' := reg.filter (fun x => x ≠ b.id)
      let r := processRemoves reg' rest
      (r.1, b.id :: r.2.1, DispatchEvent.disposeHandle b.id :: r.2.2)
    else processRemoves reg rest

/-- MainThreadDocumentsAndEditors._onDelta: project removed document URIs,
run the added-editors loop, run the removed-editors loop, send the wire
payload to the proxy, then fire the local editor-removed, editor-added,
document-removed and document-added events in that order.  Returns the new
registry and the ordered trace of observable actions. -/
def onDelta (reg : List String) (d : DocumentAndEditorStateDelta) :
    List String × List DispatchEvent :=
  let removedDocuments := d.removedDocuments.map Model.uri
  let adds := processAdds reg d.addedEditors
  let removes := processRemoves adds.1 d.removedEditors
  let payload : WirePayload :=
    { newActiveEditor := d.newActiveEditor
      removedDocuments := removedDocuments
      removedEditors := removes.2.1
      addedDocuments := d.addedDocuments.map Model.uri
      addedEditors := adds.2.1 }
  (removes.1,
    adds.2.2 ++ removes.2.2
      ++ [DispatchEvent.sendWire payload,
          DispatchEvent.fireTextEditorRemove removes.2.1,
          DispatchEvent.fireTextEditorAdd adds.2.1,
          DispatchEvent.fireDocumentRemove removedDocuments,
          DispatchEvent.fireDocumentAdd (d.addedDocuments.map Model.uri)])

/-- Event kind tests used in the ordering statements. -/
def isAddHandle : DispatchEvent → Bool
  | DispatchEvent.addHandle _ => true
  | _ => false

def isDisposeHandle : DispatchEvent → Bool
  | DispatchEvent.disposeHandle _ => true
  | _ => false

def isSendWire : DispatchEvent → Bool
  | DispatchEvent.sendWire _ => true
  | _ => false

def isFireTextEditorRemove : DispatchEvent → Bool
  | DispatchEvent.fireTextEditorRemove _ => true
  | _ => false

/-- Every event satisfying p occurs strictly before every event satisfying
q in the trace. -/
def precedes (p q : DispatchEvent → Bool) (t : List DispatchEvent) : Prop :=
  ∀ i j : Fin t.length, p (t.get i) = true → q (t.get j) = true → (i : Nat) < (j : Nat)

instance precedesDecidable (p q : DispatchEvent → Bool) (t : List DispatchEvent) :
    Decidable (precedes p q t) := by
  unfold precedes
  infer_instance

/-- Subscription bookkeeping of MainThreadDocumentAndEditorState: the
_toDispose list of top-level listener subscriptions, the per-editor
registry _toDisposeOnEditorRemove mapping editor ids to their combined
model-change/focus/blur listener, the set of currently live subscription
tokens, and a fresh-token counter. -/
structure TrackerResources where
  toDispose : List Nat
  editorSubs : List (String × Nat)
  live : List Nat
  next : Nat
deriving DecidableEq, Repr

/-- The tracker constructor: four top-level subscriptions (model added,
model removed, editor added, editor removed) are registered into
_toDispose and are live. -/
def TrackerResources.init : TrackerResources :=
  { toDispose := [0, 1, 2, 3]
    editorSubs := []
    live := [0, 1, 2, 3]
    next := 4 }

/-- The handler _onDidAddEditor: register the combined per-editor listener and store it
in the per-editor registry under the editor id (Map.set semantics:
an existing entry for the id is overwritten). -/
def TrackerResources.onDidAddEditor (t : TrackerResources) (id : String) :
    TrackerResources :=
  { toDispose := t.toDispose
    editorSubs := (id, t.next) :: t.editorSubs.filter (fun p => p.1 ≠ id)
    live := t.next :: t.live
    next := t.next + 1 }

/-- The handler _onDidRemoveEditor: when the registry has an entry for the id, delete
it and dispose its listener; otherwise do nothing. -/
def TrackerResources.onDidRemoveEditor (t : TrackerResources) (id : String) :
    TrackerResources :=
  match t.editorSubs.find? (fun p => p.1 == id) with
  | some p =>
    { toDispose := t.toDispose
      editorSubs := t.editorSubs.filter (fun q => q.1 ≠ id)
      live := t.live.filter (fun n => n ≠ p.2)
      next := t.next }
  | none => t

/-- dispose of MainThreadDocumentAndEditorState: `this._toDispose =
dispose(this._toDispose)` disposes every subscription held in _toDispose
and resets it to the empty array; the per-editor registry is not touched. -/
def TrackerResources.disposeTracker (t : TrackerResources) : TrackerResources :=
  { toDispose := []
    editorSubs := t.editorSubs
    live := t.live.filter (fun n => n ∉ t.toDispose)
    next := t.next }

/-- Number of per-editor subscriptions in the registry whose listener
token is still live. -/
def TrackerResources.liveEditorSubCount (t : TrackerResources) : Nat :=
  (t.editorSubs.filter (fun p => p.2 ∈ t.live)).length

/-- Number of live top-level subscriptions. -/
def TrackerResources.liveTopLevelCount (t : TrackerResources) : Nat :=
  (t.toDispose.filter (fun n => n ∈ t.live)).length

/-- ExtHostDocuments.$acceptModelAdd over the tracked-document map, keyed
by URI string: a duplicate URI throws before the map is touched, otherwise
the document is stored and the did-add event fires.  The result pairs the
map afterwards with the raised error message, if any. -/
def acceptModelAdd (docs : List String) (key : String) :
    List String × Option String :=
  if key ∈ docs then
    (docs, some ("Document `" ++ key ++ "` already exists."))
  else
    (docs ++ [key], none)

/-- ExtHostDocuments.$acceptModelRemoved: an untracked URI throws before
the map is touched, otherwise the entry is deleted. -/
def acceptModelRemoved (docs : List String) (key : String) :
    List String × Option String :=
  if key ∈ docs then
    (docs.filter (fun k => k ≠ key), none)
  else
    (docs, some ("Document `" ++ key ++ "` does not exist."))

/-- The remote-mirror editor-registry state of ExtHostEditors: the editor
map (keyed by id), the active editor id (undefined initially) and the
visible editor ids. -/
structure ExtHostEditorsState where
  editors : List String
  activeEditorId : Option String
  visibleEditorIds : List String
deriving DecidableEq, Repr

/-- Observable actions of ExtHostEditors while accepting a removal. -/
inductive ExtHostEvent where
  | fireVisibleChanged (ids : List String)
  | fireActiveChanged (active : Option String)
  | disposeEditor (id : String)
  | deleteEditor (id : String)
deriving DecidableEq, Repr

def isFireEvent : ExtHostEvent → Bool
  | ExtHostEvent.fireVisibleChanged _ => true
  | ExtHostEvent.fireActiveChanged _ => true
  | _ => false

/-- ExtHostEditors.$acceptActiveEditorAndVisibleEditors: update the visible
ids when they differ element-wise, update the active id when it differs
strictly, then fire the visible-changed event (with the new visible set)
and the active-changed event (with the new active id) for whichever
changed, in that order. -/
def acceptActiveEditorAndVisibleEditors (s : ExtHostEditorsState)
    (id : Option String) (visibleIds : List String) :
    ExtHostEditorsState × List ExtHostEvent :=
  let visibleChanged := s.visibleEditorIds ≠ visibleIds
  let activeChanged := s.activeEditorId ≠ id
  let s' : ExtHostEditorsState :=
    { editors := s.editors
      activeEditorId := if activeChanged then id else s.activeEditorId
      visibleEditorIds := if visibleChanged then visibleIds else s.visibleEditorIds }
  let evs1 : List ExtHostEvent :=
    if visibleChanged then [ExtHostEvent.fireVisibleChanged s'.visibleEditorIds] else []
  let evs2 : List ExtHostEvent :=
    if activeChanged then [ExtHostEvent.fireActiveChanged s'.activeEditorId] else []
  (s', evs1 ++ evs2)

/-- ExtHostEditors.$acceptTextEditorRemove: filter the removed id out of
the visible ids, route through $acceptActiveEditorAndVisibleEditors with
`undefined` when the removed editor was the active one and with the
unchanged active id otherwise, and only after those events dispose the
editor handle and delete it from the map. -/
def acceptTextEditorRemove (s : ExtHostEditorsState) (id : String) :
    ExtHostEditorsState × List ExtHostEvent :=
  let newVisibleEditors := s.visibleEditorIds.filter (fun v => v ≠ id)
  let r :=
    if s.activeEditorId = some id then
      acceptActiveEditorAndVisibleEditors s none newVisibleEditors
    else
      acceptActiveEditorAndVisibleEditors s s.activeEditorId newVisibleEditors
  let s' : ExtHostEditorsState :=
    { editors := r.1.editors.filter (fun e => e ≠ id)
      activeEditorId := r.1.activeEditorId
      visibleEditorIds := r.1.visibleEditorIds }
  (s', r.2 ++ [ExtHostEvent.disposeEditor id, ExtHostEvent.deleteEditor id])

def docUris (l : List Model) : List String := l.map Model.uri

def editorKeys (l : List EditorAndModel) : List (Lex (String × String)) :=
  l.map editorKey

def sampleStateA : DocumentAndEditorState :=
  DocumentAndEditorState.mk
    [Model.mk ("a") false, Model.mk ("b") false]
    [EditorAndModel.mk (Editor.mk ("E1") none false) (Model.mk ("a") false)]
    JSString.null

def sampleStateB : DocumentAndEditorState :=
  DocumentAndEditorState.mk
    [Model.mk ("b") false, Model.mk ("c") false]
    [EditorAndModel.mk (Editor.mk ("E2") none false) (Model.mk ("a") false)]
    JSString.null

theorem charListCmp_eq_lt {as bs : List Char} :
    charListCmp as bs = Ordering.lt ↔ List.Lex (· < ·) as bs := by
  induction as generalizing bs with
  | nil =>
    cases bs with
    | nil => simp [charListCmp]
    | cons b bs => simp [charListCmp]; exact List.Lex.nil
  | cons a as ih =>
    cases bs with
    | nil =>
      rw [show charListCmp (a :: as) [] = Ordering.gt from rfl]
      constructor
      · intro h; cases h
      · intro h; cases h
    | cons b bs =>
      show (if a < b then Ordering.lt else if b < a then Ordering.gt
        else charListCmp as bs) = Ordering.lt ↔ _
      by_cases hab : a < b
      · rw [if_pos hab]
        exact ⟨fun _ => List.Lex.rel hab, fun _ => rfl⟩
      · rw [if_neg hab]
        by_cases hba : b < a
        · rw [if_pos hba]
          constructor
          · intro h; cases h
          · intro h
            cases h with
            | cons h => exact absurd hba (lt_irrefl a)
            | rel h => exact absurd h hab
        · rw [if_neg hba]
          have hEq : a = b := le_antisymm (not_lt.mp hba) (not_lt.mp hab)
          subst hEq
          rw [ih]
          constructor
          · intro h; exact List.Lex.cons h
          · intro h
            cases h with
            | cons h => exact h
            | rel h => exact absurd h (lt_irrefl a)

theorem charListCmp_eq_eq {as bs : List Char} :
    charListCmp as bs = Ordering.eq ↔ as = bs := by
  induction as generalizing bs with
  | nil =>
    cases bs with
    | nil => simp [charListCmp]
    | cons b bs => simp [charListCmp]
  | cons a as ih =>
    cases bs with
    | nil =>
      rw [show charListCmp (a :: as) [] = Ordering.gt from rfl]
      constructor
      · intro h; cases h
      · intro h; cases h
    | cons b bs =>
      show (if a < b then Ordering.lt else if b < a then Ordering.gt
        else charListCmp as bs) = Ordering.eq ↔ _
      by_cases hab : a < b
      · rw [if_pos hab]
        constructor
        · intro h; cases h
        · intro h
          injection h with h1 _
          exact absurd hab (by rw [h1]; exact lt_irrefl b)
      · rw [if_neg hab]
        by_cases hba : b < a
        · rw [if_pos hba]
          constructor
          · intro h; cases h
          · intro h
            injection h with h1 _
            exact absurd hba (by rw [h1]; exact lt_irrefl b)
        · rw [if_neg hba]
          have hEq : a = b := le_antisymm (not_lt.mp hba) (not_lt.mp hab)
          subst hEq
          rw [ih]
          constructor
          · intro h; rw [h]
          · intro h; injection h

theorem strCompare_eq_lt {a b : String} :
    strCompare a b = Ordering.lt ↔ a < b := by
  have h1 : strCompare a b = Ordering.lt ↔ List.Lex (· < ·) a.data b.data :=
    charListCmp_eq_lt
  have h2 : a < b ↔ List.Lex (· < ·) a.data b.data := String.lt_iff_toList_lt
  exact h1.trans h2.symm

theorem strCompare_eq_eq {a b : String} :
    strCompare a b = Ordering.eq ↔ a = b := by
  have h1 : strCompare a b = Ordering.eq ↔ a.data = b.data := charListCmp_eq_eq
  exact h1.trans ⟨String.ext, fun h => by rw [h]⟩

theorem compareModels_lt_iff {a b : Model} :
    compareModels a b = Ordering.lt ↔ a.uri < b.uri :=
  strCompare_eq_lt

theorem compareModels_eq_iff {a b : Model} :
    compareModels a b = Ordering.eq ↔ a.uri = b.uri :=
  strCompare_eq_eq

theorem compareEditors_lt_iff {a b : EditorAndModel} :
    compareEditors a b = Ordering.lt ↔ editorKey a < editorKey b := by
  unfold compareEditors editorKey
  rw [Prod.Lex.lt_iff]
  by_cases hid : strCompare a.editor.id b.editor.id = Ordering.eq
  · rw [if_pos hid]
    have hEq : a.editor.id = b.editor.id := strCompare_eq_eq.mp hid
    constructor
    · intro h
      exact Or.inr ⟨hEq, strCompare_eq_lt.mp h⟩
    · intro h
      rcases h with h | ⟨_, h⟩
      · rw [hEq] at h; exact absurd h (lt_irrefl _)
      · exact strCompare_eq_lt.mpr h
  · rw [if_neg hid]
    constructor
    · intro h
      exact Or.inl (strCompare_eq_lt.mp h)
    · intro h
      rcases h with h | ⟨heq, _⟩
      · exact strCompare_eq_lt.mpr h
      · exact absurd (strCompare_eq_eq.mpr heq) hid

theorem compareEditors_eq_iff {a b : EditorAndModel} :
    compareEditors a b = Ordering.eq ↔ editorKey a = editorKey b := by
  unfold compareEditors editorKey
  constructor
  · intro h
    by_cases hid : strCompare a.editor.id b.editor.id = Ordering.eq
    · rw [if_pos hid] at h
      exact congrArg toLex
        (Prod.ext (strCompare_eq_eq.mp hid) (strCompare_eq_eq.mp h))
    · rw [if_neg hid] at h
      exact absurd h hid
  · intro h
    have h1 : a.editor.id = b.editor.id := congrArg (fun p => (ofLex p).1) h
    have h2 : a.document.uri = b.document.uri := congrArg (fun p => (ofLex p).2) h
    rw [if_pos (strCompare_eq_eq.mpr h1)]
    exact strCompare_eq_eq.mpr h2

/-- Single-step unfolding of the merge on two non-empty sequences, giving
back the three-way cursor step of the specification. -/
theorem deltaMerge_cons_cons {α : Type} (cmp : α → α → Ordering)
    (a : α) (as : List α) (b : α) (bs : List α) :
    deltaMerge cmp (a :: as) (b :: bs) =
      match cmp a b with
      | Ordering.eq => deltaMerge cmp as bs
      | Ordering.lt =>
        let r := deltaMerge cmp as (b :: bs)
        (a :: r.1, r.2)
      | Ordering.gt =>
        let r := deltaMerge cmp (a :: as) bs
        (r.1, b :: r.2) := by
  show deltaMergeGo cmp a as (deltaMerge cmp as) (b :: bs) = _
  cases hc : cmp a b with
  | eq => simp [deltaMergeGo, hc]
  | lt => simp [deltaMergeGo, hc]
  | gt =>
    simp only [deltaMergeGo, hc]
    exact rfl

theorem deltaMerge_nil_right {α : Type} (cmp : α → α → Ordering)
    (a : α) (as : List α) : deltaMerge cmp (a :: as) [] = (a :: as, []) := rfl

theorem cmpKeyed_gt_iff {α : Type} {κ : Type} [LinearOrder κ] {k : α → κ}
    {cmp : α → α → Ordering}
    (hlt : ∀ a b, cmp a b = Ordering.lt ↔ k a < k b)
    (heq : ∀ a b, cmp a b = Ordering.eq ↔ k a = k b)
    (a b : α) : cmp a b = Ordering.gt ↔ k b < k a := by
  constructor
  · intro h
    rcases lt_trichotomy (k a) (k b) with h1 | h1 | h1
    · rw [← hlt a b] at h1; rw [h] at h1; cases h1
    · rw [← heq a b] at h1; rw [h] at h1; cases h1
    · exact h1
  · intro h
    cases hc : cmp a b with
    | lt =>
      rw [hlt a b] at hc
      exact absurd hc (not_lt.mpr (le_of_lt h))
    | eq =>
      rw [heq a b] at hc
      exact absurd h (by rw [hc]; exact lt_irrefl _)
    | gt => rfl

theorem deltaMerge_self {α : Type} (cmp : α → α → Ordering)
    (hrefl : ∀ a, cmp a a = Ordering.eq) :
    ∀ l : List α, deltaMerge cmp l l = ([], []) := by
  intro l
  induction l with
  | nil => rfl
  | cons a as ih =>
    have hstep : deltaMerge cmp (a :: as) (a :: as) = deltaMerge cmp as as := by
      rw [deltaMerge_cons_cons, hrefl a]
    rw [hstep]
    exact ih

theorem mem_deltaMerge_removed {α : Type} {κ : Type} [LinearOrder κ] (k : α → κ)
    (cmp : α → α → Ordering)
    (hlt : ∀ a b, cmp a b = Ordering.lt ↔ k a < k b)
    (heq : ∀ a b, cmp a b = Ordering.eq ↔ k a = k b) :
    ∀ (before after : List α),
      before.Pairwise (fun a b => k a < k b) →
      after.Pairwise (fun a b => k a < k b) →
      ∀ x, x ∈ (deltaMerge cmp before after).1 ↔
        x ∈ before ∧ k x ∉ after.map k := by
  intro before
  induction before with
  | nil =>
    intro after _ _ x
    simp [deltaMerge]
  | cons a as ihB =>
    intro after
    induction after with
    | nil =>
      intro _ _ x
      rw [deltaMerge_nil_right]
      simp
    | cons b bs ihA =>
      intro hB hA x
      cases hc : cmp a b with
      | eq =>
        have hk : k a = k b := (heq a b).mp hc
        rw [List.pairwise_cons] at hB hA
        have hrec := ihB bs hB.2 hA.2 x
        have hstep : deltaMerge cmp (a :: as) (b :: bs) = deltaMerge cmp as bs := by
          rw [deltaMerge_cons_cons, hc]
        rw [hstep, hrec]
        constructor
        · intro ⟨hx, hnx⟩
          refine ⟨List.mem_cons_of_mem a hx, ?_⟩
          intro hmem
          rw [List.map_cons, List.mem_cons] at hmem
          rcases hmem with hmem | hmem
          · have : k a < k x := hB.1 x hx
            rw [hk] at this
            rw [hmem] at this
            exact absurd this (lt_irrefl _)
          · exact hnx hmem
        · intro ⟨hx, hnx⟩
          rcases List.mem_cons.mp hx with hxa | hx
          · subst hxa
            exact absurd (by rw [List.map_cons, List.mem_cons]; exact Or.inl hk) hnx
          · refine ⟨hx, ?_⟩
            intro hmem
            exact hnx (by rw [List.map_cons, List.mem_cons]; exact Or.inr hmem)
      | lt =>
        have hk : k a < k b := (hlt a b).mp hc
        rw [List.pairwise_cons] at hB
        have hrec := ihB (b :: bs) hB.2 hA x
        have hstep : deltaMerge cmp (a :: as) (b :: bs) =
            (a :: (deltaMerge cmp as (b :: bs)).1, (deltaMerge cmp as (b :: bs)).2) := by
          rw [deltaMerge_cons_cons, hc]
        rw [hstep]
        show x ∈ a :: (deltaMerge cmp as (b :: bs)).1 ↔ _
        rw [List.mem_cons, hrec]
        rw [List.pairwise_cons] at hA
        constructor
        · intro h
          rcases h with hxa | ⟨hx, hnx⟩
          · subst hxa
            refine ⟨List.mem_cons_self _ _, ?_⟩
            intro hmem
            rw [List.map_cons, List.mem_cons] at hmem
            rcases hmem with hmem | hmem
            · rw [hmem] at hk; exact absurd hk (lt_irrefl _)
            · rcases List.mem_map.mp hmem with ⟨c, hc1, hc2⟩
              have : k b < k c := hA.1 c hc1
              rw [hc2] at this
              exact absurd (hk.trans this) (lt_irrefl _)
          · exact ⟨List.mem_cons_of_mem a hx, hnx⟩
        · intro ⟨hx, hnx⟩
          rcases List.mem_cons.mp hx with hxa | hx
          · exact Or.inl hxa
          · exact Or.inr ⟨hx, hnx⟩
      | gt =>
        have hk : k b < k a := (cmpKeyed_gt_iff hlt heq a b).mp hc
        rw [List.pairwise_cons] at hA
        have hrec := ihA hB hA.2 x
        have hstep : deltaMerge cmp (a :: as) (b :: bs) =
            ((deltaMerge cmp (a :: as) bs).1, b :: (deltaMerge cmp (a :: as) bs).2) := by
          rw [deltaMerge_cons_cons, hc]
        rw [hstep]
        show x ∈ (deltaMerge cmp (a :: as) bs).1 ↔ _
        rw [hrec]
        rw [List.pairwise_cons] at hB
        constructor
        · intro ⟨hx, hnx⟩
          refine ⟨hx, ?_⟩
          intro hmem
          rw [List.map_cons, List.mem_cons] at hmem
          rcases hmem with hmem | hmem
          · rcases List.mem_cons.mp hx with hxa | hx2
            · subst hxa; rw [hmem] at hk; exact absurd hk (lt_irrefl _)
            · have h2 : k b < k x := hk.trans (hB.1 x hx2)
              rw [hmem] at h2
              exact absurd h2 (lt_irrefl _)
          · exact hnx hmem
        · intro ⟨hx, hnx⟩
          refine ⟨hx, ?_⟩
          intro hmem
          exact hnx (by rw [List.map_cons, List.mem_cons]; exact Or.inr hmem)

theorem mem_deltaMerge_added {α : Type} {κ : Type} [LinearOrder κ] (k : α → κ)
    (cmp : α → α → Ordering)
    (hlt : ∀ a b, cmp a b = Ordering.lt ↔ k a < k b)
    (heq : ∀ a b, cmp a b = Ordering.eq ↔ k a = k b) :
    ∀ (before after : List α),
      before.Pairwise (fun a b => k a < k b) →
      after.Pairwise (fun a b => k a < k b) →
      ∀ x, x ∈ (deltaMerge cmp before after).2 ↔
        x ∈ after ∧ k x ∉ before.map k := by
  intro before
  induction before with
  | nil =>
    intro after _ _ x
    simp [deltaMerge]
  | cons a as ihB =>
    intro after
    induction after with
    | nil =>
      intro _ _ x
      rw [deltaMerge_nil_right]
      simp
    | cons b bs ihA =>
      intro hB hA x
      cases hc : cmp a b with
      | eq =>
        have hk : k a = k b := (heq a b).mp hc
        rw [List.pairwise_cons] at hB hA
        have hrec := ihB bs hB.2 hA.2 x
        have hstep : deltaMerge cmp (a :: as) (b :: bs) = deltaMerge cmp as bs := by
          rw [deltaMerge_cons_cons, hc]
        rw [hstep, hrec]
        constructor
        · intro ⟨hx, hnx⟩
          refine ⟨List.mem_cons_of_mem b hx, ?_⟩
          intro hmem
          rw [List.map_cons, List.mem_cons] at hmem
          rcases hmem with hmem | hmem
          · have : k b < k x := hA.1 x hx
            rw [← hk] at this
            rw [hmem] at this
            exact absurd this (lt_irrefl _)
          · exact hnx hmem
        · intro ⟨hx, hnx⟩
          rcases List.mem_cons.mp hx with hxb | hx
          · subst hxb
            exact absurd
              (by rw [List.map_cons, List.mem_cons]; exact Or.inl hk.symm) hnx
          · refine ⟨hx, ?_⟩
            intro hmem
            exact hnx (by rw [List.map_cons, List.mem_cons]; exact Or.inr hmem)
      | lt =>
        have hk : k a < k b := (hlt a b).mp hc
        rw [List.pairwise_cons] at hB
        have hrec := ihB (b :: bs) hB.2 hA x
        have hstep : deltaMerge cmp (a :: as) (b :: bs) =
            (a :: (deltaMerge cmp as (b :: bs)).1, (deltaMerge cmp as (b :: bs)).2) := by
          rw [deltaMerge_cons_cons, hc]
        rw [hstep]
        show x ∈ (deltaMerge cmp as (b :: bs)).2 ↔ _
        rw [hrec]
        rw [List.pairwise_cons] at hA
        constructor
        · intro ⟨hx, hnx⟩
          refine ⟨hx, ?_⟩
          intro hmem
          rw [List.map_cons, List.mem_cons] at hmem
          rcases hmem with hmem | hmem
          · rcases List.mem_cons.mp hx with hxb | hx2
            · subst hxb; rw [hmem] at hk; exact absurd hk (lt_irrefl _)
            · have h2 : k a < k x := hk.trans (hA.1 x hx2)
              rw [hmem] at h2
              exact absurd h2 (lt_irrefl _)
          · exact hnx hmem
        · intro ⟨hx, hnx⟩
          refine ⟨hx, ?_⟩
          intro hmem
          exact hnx (by rw [List.map_cons, List.mem_cons]; exact Or.inr hmem)
      | gt =>
        have hk : k b < k a := (cmpKeyed_gt_iff hlt heq a b).mp hc
        rw [List.pairwise_cons] at hA
        have hrec := ihA hB hA.2 x
        have hstep : deltaMerge cmp (a :: as) (b :: bs) =
            ((deltaMerge cmp (a :: as) bs).1, b :: (deltaMerge cmp (a :: as) bs).2) := by
          rw [deltaMerge_cons_cons, hc]
        rw [hstep]
        show x ∈ b :: (deltaMerge cmp (a :: as) bs).2 ↔ _
        rw [List.mem_cons, hrec]
        rw [List.pairwise_cons] at hB
        constructor
        · intro h
          rcases h with hxb | ⟨hx, hnx⟩
          · subst hxb
            refine ⟨List.mem_cons_self _ _, ?_⟩
            intro hmem
            rw [List.map_cons, List.mem_cons] at hmem
            rcases hmem with hmem | hmem
            · rw [hmem] at hk; exact absurd hk (lt_irrefl _)
            · rcases List.mem_map.mp hmem with ⟨c, hc1, hc2⟩
              have : k a < k c := hB.1 c hc1
              rw [hc2] at this
              exact absurd (hk.trans this) (lt_irrefl _)
          · exact ⟨List.mem_cons_of_mem b hx, hnx⟩
        · intro ⟨hx, hnx⟩
          rcases List.mem_cons.mp hx with hxb | hx
          · exact Or.inl hxb
          · exact Or.inr ⟨hx, hnx⟩

theorem precedes_of_append {p q : DispatchEvent → Bool}
    {xs ys : List DispatchEvent}
    (hxs : ∀ e ∈ xs, q e = false) (hys : ∀ e ∈ ys, p e = false) :
    precedes p q (xs ++ ys) := by
  intro i j hp hq
  rcases i with ⟨i, hi⟩
  rcases j with ⟨j, hj⟩
  simp only [List.get_eq_getElem] at hp hq
  show i < j
  have hiL : i < xs.length := by
    by_contra hge
    push_neg at hge
    have hylen : i - xs.length < ys.length := by
      rw [List.length_append] at hi; omega
    have heqi : (xs ++ ys)[i] = ys[i - xs.length] := List.getElem_append_right hge
    rw [heqi] at hp
    have hmem : ys[i - xs.length] ∈ ys := List.getElem_mem hylen
    rw [hys _ hmem] at hp
    cases hp
  have hjL : xs.length ≤ j := by
    by_contra hlt
    push_neg at hlt
    have heqj : (xs ++ ys)[j] = xs[j] := List.getElem_append_left hlt
    rw [heqj] at hq
    have hmem : xs[j] ∈ xs := List.getElem_mem hlt
    rw [hxs _ hmem] at hq
    cases hq
  omega

theorem compareModels_refl (a : Model) : compareModels a a = Ordering.eq :=
  compareModels_eq_iff.mpr rfl

theorem compareEditors_refl (a : EditorAndModel) :
    compareEditors a a = Ordering.eq :=
  compareEditors_eq_iff.mpr rfl

theorem mem_sortByCmp {α : Type} (cmp : α → α → Ordering) [DecidableEq α]
    (l : List α) (x : α) : x ∈ sortByCmp cmp l ↔ x ∈ l :=
  (List.perm_insertionSort _ l).mem_iff

/-- Every binding produced by the editor scan comes from a listed editor
whose model is present and not too large. -/
theorem scanEditors_sound (es : List Editor) :
    ∀ (act : JSString) (b : EditorAndModel), b ∈ (scanEditors es act).1 →
      b.editor ∈ es ∧ b.editor.model = some b.document ∧
      b.document.isTooLargeForHavingARichMode = false := by
  induction es with
  | nil => intro act b h; cases h
  | cons e rest ih =>
    intro act b h
    cases hm : e.model with
    | none =>
      rw [show scanEditors (e :: rest) act = scanEditors rest act by
        simp [scanEditors, hm]] at h
      have := ih act b h
      exact ⟨List.mem_cons_of_mem e this.1, this.2⟩
    | some m =>
      by_cases hl : m.isTooLargeForHavingARichMode
      · rw [show scanEditors (e :: rest) act = scanEditors rest act by
          simp [scanEditors, hm, hl]] at h
        have := ih act b h
        exact ⟨List.mem_cons_of_mem e this.1, this.2⟩
      · have hstep : scanEditors (e :: rest) act =
            (({ editor := e, document := m } : EditorAndModel) ::
              (scanEditors rest (if e.focused
                then JSString.str (EditorAndModel.id { editor := e, document := m })
                else act)).1,
             (scanEditors rest (if e.focused
                then JSString.str (EditorAndModel.id { editor := e, document := m })
                else act)).2) := by
          simp [scanEditors, hm, hl]
        rw [hstep] at h
        rcases List.mem_cons.mp h with hb | hb
        · subst hb
          exact ⟨List.mem_cons_self _ _, hm, by simpa using hl⟩
        · have := ih _ b hb
          exact ⟨List.mem_cons_of_mem e this.1, this.2⟩

/-- The focus accumulator after the editor scan: either some scanned
binding has focus and the accumulator is its id, or no scanned binding has
focus and the accumulator is untouched. -/
theorem scanEditors_act (es : List Editor) :
    ∀ act : JSString,
      (∃ b ∈ (scanEditors es act).1, b.editor.focused = true ∧
        (scanEditors es act).2 = JSString.str b.id)
      ∨ ((∀ b ∈ (scanEditors es act).1, b.editor.focused = false) ∧
        (scanEditors es act).2 = act) := by
  induction es with
  | nil =>
    intro act
    right
    exact ⟨fun b h => absurd h (List.not_mem_nil b), rfl⟩
  | cons e rest ih =>
    intro act
    cases hm : e.model with
    | none =>
      rw [show scanEditors (e :: rest) act = scanEditors rest act by
        simp [scanEditors, hm]]
      exact ih act
    | some m =>
      by_cases hl : m.isTooLargeForHavingARichMode
      · rw [show scanEditors (e :: rest) act = scanEditors rest act by
          simp [scanEditors, hm, hl]]
        exact ih act
      · have hstep : scanEditors (e :: rest) act =
            (({ editor := e, document := m } : EditorAndModel) ::
              (scanEditors rest (if e.focused
                then JSString.str (EditorAndModel.id { editor := e, document := m })
                else act)).1,
             (scanEditors rest (if e.focused
                then JSString.str (EditorAndModel.id { editor := e, document := m })
                else act)).2) := by
          simp [scanEditors, hm, hl]
        rw [hstep]
        by_cases hf : e.focused
        · rw [if_pos hf]
          rcases ih (JSString.str (EditorAndModel.id { editor := e, document := m }))
            with ⟨b, hb, hbf, hact⟩ | ⟨hnone, hact⟩
          · exact Or.inl ⟨b, List.mem_cons_of_mem _ hb, hbf, hact⟩
          · refine Or.inl ⟨{ editor := e, document := m }, List.mem_cons_self _ _, hf, ?_⟩
            exact hact
        · rw [if_neg hf]
          rcases ih act with ⟨b, hb, hbf, hact⟩ | ⟨hnone, hact⟩
          · exact Or.inl ⟨b, List.mem_cons_of_mem _ hb, hbf, hact⟩
          · refine Or.inr ⟨?_, hact⟩
            intro b hb
            rcases List.mem_cons.mp hb with hb | hb
            · rw [hb]
              simpa using hf
            · exact hnone b hb

/-- A binding id is never the empty string: it contains the joining comma. -/
theorem bindingId_ne_empty (e : EditorAndModel) : (e.id == "") = false := by
  rw [beq_eq_false_iff_ne]
  intro h
  have hlen := congrArg String.length h
  rw [EditorAndModel.id] at hlen
  rw [String.length_append, String.length_append] at hlen
  rw [show ("," : String).length = 1 from rfl] at hlen
  rw [show ("" : String).length = 0 from rfl] at hlen
  omega

theorem jsFalsy_bindingId (e : EditorAndModel) :
    jsFalsy (JSString.str e.id) = false := by
  rw [show jsFalsy (JSString.str e.id) = (e.id == "") from rfl]
  exact bindingId_ne_empty e

theorem processAdds_events (l : List EditorAndModel) :
    ∀ reg : List String, ∀ e ∈ (processAdds reg l).2.2, isAddHandle e = true := by
  induction l with
  | nil => intro reg e h; cases h
  | cons b rest ih =>
    intro reg e h
    rw [show processAdds reg (b :: rest) =
      ((processAdds (if b.id ∈ reg then reg else reg ++ [b.id]) rest).1,
       b.id :: (processAdds (if b.id ∈ reg then reg else reg ++ [b.id]) rest).2.1,
       DispatchEvent.addHandle b.id ::
         (processAdds (if b.id ∈ reg then reg else reg ++ [b.id]) rest).2.2)
      from by simp [processAdds]] at h
    rcases List.mem_cons.mp h with he | he
    · rw [he]; rfl
    · exact ih _ e he

theorem processRemoves_events (l : List EditorAndModel) :
    ∀ reg : List String, ∀ e ∈ (processRemoves reg l).2.2,
      isDisposeHandle e = true := by
  induction l with
  | nil => intro reg e h; cases h
  | cons b rest ih =>
    intro reg e h
    by_cases hb : b.id ∈ reg
    · rw [show processRemoves reg (b :: rest) =
        ((processRemoves (reg.filter (fun x => x ≠ b.id)) rest).1,
         b.id :: (processRemoves (reg.filter (fun x => x ≠ b.id)) rest).2.1,
         DispatchEvent.disposeHandle b.id ::
           (processRemoves (reg.filter (fun x => x ≠ b.id)) rest).2.2)
        from by simp [processRemoves, hb]] at h
      rcases List.mem_cons.mp h with he | he
      · rw [he]; rfl
      · exact ih _ e he
    · rw [show processRemoves reg (b :: rest) = processRemoves reg rest
        from by simp [processRemoves, hb]] at h
      exact ih _ e h

/-- An id never added to the registry stays out of the added-loop state. -/
theorem processAdds_not_mem (l : List EditorAndModel) :
    ∀ reg : List String, ∀ x : String, x ∉ reg →
      x ∉ l.map EditorAndModel.id → x ∉ (processAdds reg l).1 := by
  induction l with
  | nil => intro reg x hr _ h; exact hr h
  | cons b rest ih =>
    intro reg x hr hl h
    rw [List.map_cons] at hl
    have hxb : x ≠ b.id := fun hx => hl (by rw [hx]; exact List.mem_cons_self _ _)
    have hxrest : x ∉ rest.map EditorAndModel.id :=
      fun hx => hl (List.mem_cons_of_mem _ hx)
    rw [show processAdds reg (b :: rest) =
      ((processAdds (if b.id ∈ reg then reg else reg ++ [b.id]) rest).1,
       b.id :: (processAdds (if b.id ∈ reg then reg else reg ++ [b.id]) rest).2.1,
       DispatchEvent.addHandle b.id ::
         (processAdds (if b.id ∈ reg then reg else reg ++ [b.id]) rest).2.2)
      from by simp [processAdds]] at h
    have hr' : x ∉ (if b.id ∈ reg then reg else reg ++ [b.id]) := by
      by_cases hbr : b.id ∈ reg
      · rw [if_pos hbr]; exact hr
      · rw [if_neg hbr]
        intro hx
        rcases List.mem_append.mp hx with hx | hx
        · exact hr hx
        · rcases List.mem_singleton.mp hx with hx
          exact hxb hx
    exact ih _ x hr' hxrest h

/-- Processing removals never disposes, reports or retains an id that was
not in the registry when the loop started. -/
theorem processRemoves_not_mem (l : List EditorAndModel) :
    ∀ reg : List String, ∀ x : String, x ∉ reg →
      x ∉ (processRemoves reg l).1 ∧ x ∉ (processRemoves reg l).2.1 ∧
      DispatchEvent.disposeHandle x ∉ (processRemoves reg l).2.2 := by
  induction l with
  | nil =>
    intro reg x hr
    exact ⟨hr, fun h => absurd h (List.not_mem_nil x), fun h => (List.not_mem_nil _) h⟩
  | cons b rest ih =>
    intro reg x hr
    by_cases hb : b.id ∈ reg
    · have hxb : x ≠ b.id := fun hx => hr (hx ▸ hb)
      have hr' : x ∉ reg.filter (fun y => y ≠ b.id) := by
        intro hx
        exact hr (List.mem_filter.mp hx).1
      have hrest := ih (reg.filter (fun y => y ≠ b.id)) x hr'
      rw [show processRemoves reg (b :: rest) =
        ((processRemoves (reg.filter (fun y => y ≠ b.id)) rest).1,
         b.id :: (processRemoves (reg.filter (fun y => y ≠ b.id)) rest).2.1,
         DispatchEvent.disposeHandle b.id ::
           (processRemoves (reg.filter (fun y => y ≠ b.id)) rest).2.2)
        from by simp [processRemoves, hb]]
      refine ⟨hrest.1, ?_, ?_⟩
      · intro hx
        rcases List.mem_cons.mp hx with hx | hx
        · exact hxb hx
        · exact hrest.2.1 hx
      · intro hx
        rcases List.mem_cons.mp hx with hx | hx
        · exact hxb (by injection hx)
        · exact hrest.2.2 hx
    · rw [show processRemoves reg (b :: rest) = processRemoves reg rest
        from by simp [processRemoves, hb]]
      exact ih reg x hr

/-- C2: a delta is isEmpty exactly when its four sequences are empty and
its old active value strictly equals its new active value; _updateState
never fires a delta for which isEmpty holds, and when the computed delta
is empty it neither emits nor replaces the stored snapshot — for every
tracker state, the very first recomputation included. -/
theorem updateState_never_fires_empty :
    (∀ d : DocumentAndEditorStateDelta,
      d.isEmpty = true ↔
        (d.removedDocuments = [] ∧ d.addedDocuments = [] ∧ d.removedEditors = []
          ∧ d.addedEditors = [] ∧ d.oldActiveEditor = d.newActiveEditor))
    ∧ (∀ (cur : Option DocumentAndEditorState) (w : WorldState)
        (d : DocumentAndEditorStateDelta),
        (updateState cur w).2 = some d → d.isEmpty = false)
    ∧ (∀ (cur : Option DocumentAndEditorState) (w : WorldState),
        (DocumentAndEditorState.compute cur (newSnapshot w)).isEmpty = true →
        updateState cur w = (cur, none)) := by
  refine ⟨?_, ?_, ?_⟩
  · intro d
    unfold DocumentAndEditorStateDelta.isEmpty
    simp [Bool.and_eq_true, beq_iff_eq, List.length_eq_zero, and_assoc]
  · intro cur w d h
    by_cases hc : (DocumentAndEditorState.compute cur (newSnapshot w)).isEmpty = true
    · simp only [updateState] at h
      rw [if_pos hc] at h
      cases h
    · simp only [updateState] at h
      rw [if_neg hc] at h
      injection h with h
      rw [← h]
      exact (Bool.not_eq_true _) ▸ hc
  · intro cur w h
    simp only [updateState]
    rw [if_pos h]

/-- Witness for C2: from the empty world the first recomputation fires a
delta whose isEmpty is false (its old active is undefined while its new
active is null), and a tracker already holding the empty snapshot neither
fires nor changes its stored state. -/
theorem updateState_never_fires_empty_witness :
    (DocumentAndEditorStateDelta.mk [] [] [] [] JSString.undef JSString.null).isEmpty
      = false
    ∧ updateState (some (DocumentAndEditorState.mk [] [] JSString.null))
        (WorldState.mk [] [] none)
      = (some (DocumentAndEditorState.mk [] [] JSString.null), none) := by
  constructor
  · exact updateState_never_fires_empty.2.1 none (WorldState.mk [] [] none) _
      (by decide)
  · exact updateState_never_fires_empty.2.2
      (some (DocumentAndEditorState.mk [] [] JSString.null))
      (WorldState.mk [] [] none) (by decide)

/-- C7: diffing a snapshot against itself yields the delta with empty
sequences and undefined on both active sides, which is isEmpty; and more
generally whenever the two active values are equal both are reported
undefined (absent). -/
theorem compute_self_is_empty :
    (∀ A : DocumentAndEditorState,
      DocumentAndEditorState.compute (some A) A =
        DocumentAndEditorStateDelta.mk [] [] [] [] JSString.undef JSString.undef
      ∧ (DocumentAndEditorState.compute (some A) A).isEmpty = true)
    ∧ (∀ A B : DocumentAndEditorState, A.activeEditor = B.activeEditor →
      (DocumentAndEditorState.compute (some A) B).oldActiveEditor = JSString.undef
      ∧ (DocumentAndEditorState.compute (some A) B).newActiveEditor
          = JSString.undef) := by
  constructor
  · intro A
    have hd := deltaMerge_self compareModels compareModels_refl A.documents
    have he := deltaMerge_self compareEditors compareEditors_refl A.editors
    have h1 : DocumentAndEditorState.compute (some A) A =
        DocumentAndEditorStateDelta.mk [] [] [] [] JSString.undef JSString.undef := by
      simp [DocumentAndEditorState.compute, hd, he]
    exact ⟨h1, by rw [h1]; rfl⟩
  · intro A B h
    constructor <;> simp [DocumentAndEditorState.compute, h]

/-- Witness for C7: two snapshots with the same active id diff to an
absent/absent active transition. -/
theorem compute_self_is_empty_witness :
    (DocumentAndEditorState.mk [] [] (JSString.str ("x"))).activeEditor =
      (DocumentAndEditorState.mk [Model.mk ("a") false] []
        (JSString.str ("x"))).activeEditor
    ∧ (DocumentAndEditorState.compute
        (some (DocumentAndEditorState.mk [] [] (JSString.str ("x"))))
        (DocumentAndEditorState.mk [Model.mk ("a") false] []
          (JSString.str ("x")))).oldActiveEditor = JSString.undef
    ∧ (DocumentAndEditorState.compute
        (some (DocumentAndEditorState.mk [] [] (JSString.str ("x"))))
        (DocumentAndEditorState.mk [Model.mk ("a") false] []
          (JSString.str ("x")))).newActiveEditor = JSString.undef := by
  refine ⟨rfl, ?_, ?_⟩
  · exact (compute_self_is_empty.2 _ _ rfl).1
  · exact (compute_self_is_empty.2 _ _ rfl).2

/-- C9: on the document-accepting side a duplicate add raises an error and
an untracked remove raises an error, and in both failure cases the tracked
map is returned unchanged. -/
theorem acceptModel_duplicate_and_untracked_error
    (docs : List String) (k1 k2 : String) (h1 : k1 ∈ docs) (h2 : k2 ∉ docs) :
    acceptModelAdd docs k1 =
      (docs, some ("Document `" ++ k1 ++ "` already exists."))
    ∧ acceptModelRemoved docs k2 =
      (docs, some ("Document `" ++ k2 ++ "` does not exist.")) := by
  constructor
  · unfold acceptModelAdd
    rw [if_pos h1]
  · unfold acceptModelRemoved
    rw [if_neg h2]

/-- Witness for C9 on a one-entry map. -/
theorem acceptModel_duplicate_and_untracked_error_witness :
    ("a" : String) ∈ ["a"] ∧ ("b" : String) ∉ ["a"]
    ∧ acceptModelAdd (["a"]) ("a") =
      (["a"], some ("Document `" ++ "a" ++ "` already exists."))
    ∧ acceptModelRemoved (["a"]) ("b") =
      (["a"], some ("Document `" ++ "b" ++ "` does not exist.")) := by
  refine ⟨by decide, by decide, ?_, ?_⟩
  · exact (acceptModel_duplicate_and_untracked_error (["a"]) ("a") ("b")
      (by decide) (by decide)).1
  · exact (acceptModel_duplicate_and_untracked_error (["a"]) ("a") ("b")
      (by decide) (by decide)).2

theorem addHandle_kind {e : DispatchEvent} (h : isAddHandle e = true) :
    isDisposeHandle e = false ∧ isSendWire e = false
    ∧ isFireTextEditorRemove e = false := by
  cases e <;> simp [isAddHandle] at h <;>
    exact ⟨rfl, rfl, rfl⟩

theorem disposeHandle_kind {e : DispatchEvent} (h : isDisposeHandle e = true) :
    isAddHandle e = false ∧ isSendWire e = false
    ∧ isFireTextEditorRemove e = false := by
  cases e <;> simp [isDisposeHandle] at h <;>
    exact ⟨rfl, rfl, rfl⟩

/-- The trace of one _onDelta run, written out. -/
theorem onDelta_trace (reg : List String) (d : DocumentAndEditorStateDelta) :
    (onDelta reg d).2 =
      (processAdds reg d.addedEditors).2.2
        ++ (processRemoves (processAdds reg d.addedEditors).1 d.removedEditors).2.2
        ++ [DispatchEvent.sendWire
                { newActiveEditor := d.newActiveEditor
                  removedDocuments := d.removedDocuments.map Model.uri
                  removedEditors :=
                    (processRemoves (processAdds reg d.addedEditors).1
                      d.removedEditors).2.1
                  addedDocuments := d.addedDocuments.map Model.uri
                  addedEditors := (processAdds reg d.addedEditors).2.1 },
              DispatchEvent.fireTextEditorRemove
                (processRemoves (processAdds reg d.addedEditors).1
                  d.removedEditors).2.1,
              DispatchEvent.fireTextEditorAdd (processAdds reg d.addedEditors).2.1,
              DispatchEvent.fireDocumentRemove (d.removedDocuments.map Model.uri),
              DispatchEvent.fireDocumentAdd (d.addedDocuments.map Model.uri)] := rfl

/-- C8: a removedEditors entry whose binding id has no registered handle is
a no-op: nothing is disposed for that id, the registry's membership for the
id is unchanged, and the id is reported neither in the wire payload's
removedEditors nor in the local editor-removed event. -/
theorem onDelta_untracked_remove_noop (reg : List String)
    (d : DocumentAndEditorStateDelta) (b : EditorAndModel)
    (hmem : b ∈ d.removedEditors) (hreg : b.id ∉ reg)
    (hadd : b.id ∉ d.addedEditors.map EditorAndModel.id) :
    DispatchEvent.disposeHandle b.id ∉ (onDelta reg d).2
    ∧ ((b.id ∈ (onDelta reg d).1) ↔ (b.id ∈ reg))
    ∧ (∀ p : WirePayload, DispatchEvent.sendWire p ∈ (onDelta reg d).2 →
        b.id ∉ p.removedEditors)
    ∧ (∀ ids : List String,
        DispatchEvent.fireTextEditorRemove ids ∈ (onDelta reg d).2 →
        b.id ∉ ids) := by
  have hreg1 : b.id ∉ (processAdds reg d.addedEditors).1 :=
    processAdds_not_mem d.addedEditors reg b.id hreg hadd
  have hrem := processRemoves_not_mem d.removedEditors
    (processAdds reg d.addedEditors).1 b.id hreg1
  refine ⟨?_, ?_, ?_, ?_⟩
  · intro h
    rw [onDelta_trace] at h
    rcases List.mem_append.mp h with h | h
    · rcases List.mem_append.mp h with h | h
      · have hk := processAdds_events d.addedEditors reg _ h
        simp [isAddHandle] at hk
      · exact hrem.2.2 h
    · simp at h
  · have h1 : (onDelta reg d).1 =
        (processRemoves (processAdds reg d.addedEditors).1 d.removedEditors).1 := rfl
    rw [h1]
    exact iff_of_false hrem.1 hreg
  · intro p hp
    rw [onDelta_trace] at hp
    rcases List.mem_append.mp hp with h | h
    · rcases List.mem_append.mp h with h | h
      · have hk := processAdds_events d.addedEditors reg _ h
        simp [isAddHandle] at hk
      · have hk := processRemoves_events d.removedEditors _ _ h
        simp [isDisposeHandle] at hk
    · simp only [List.mem_cons, List.not_mem_nil, or_false] at h
      rcases h with h | h | h | h | h <;> first
        | (injection h with h2; rw [h2]; exact hrem.2.1)
        | (cases h)
  · intro ids hp
    rw [onDelta_trace] at hp
    rcases List.mem_append.mp hp with h | h
    · rcases List.mem_append.mp h with h | h
      · have hk := processAdds_events d.addedEditors reg _ h
        simp [isAddHandle] at hk
      · have hk := processRemoves_events d.removedEditors _ _ h
        simp [isDisposeHandle] at hk
    · simp only [List.mem_cons, List.not_mem_nil, or_false] at h
      rcases h with h | h | h | h | h <;> first
        | (injection h with h2; rw [h2]; exact hrem.2.1)
        | (cases h)

/-- Witness for C8: removing a binding whose id was never registered. -/
theorem onDelta_untracked_remove_noop_witness :
    DispatchEvent.disposeHandle
        (EditorAndModel.id
          { editor := { id := ("E1"), model := none, focused := false }
            document := { uri := ("a"), isTooLargeForHavingARichMode := false } })
      ∉ (onDelta []
          { removedDocuments := []
            addedDocuments := []
            removedEditors :=
              [{ editor := { id := ("E1"), model := none, focused := false }
                 document := { uri := ("a"), isTooLargeForHavingARichMode := false } }]
            addedEditors := []
            oldActiveEditor := JSString.undef
            newActiveEditor := JSString.undef }).2 := by
  exact (onDelta_untracked_remove_noop [] _ _
    (List.mem_cons_self _ _) (by decide) (by decide)).1

/-- C4 (amended): for every non-empty delta the dispatcher applies
additions (handle creation and registration) before any removal disposal,
disposes each removed Live Editor Handle before the wire payload is
projected outward, and sends the wire payload before the local
editor-removed event fires. -/
theorem onDelta_ordering (reg : List String) (d : DocumentAndEditorStateDelta)
    (hne : d.isEmpty = false) :
    precedes isAddHandle isDisposeHandle (onDelta reg d).2
    ∧ precedes isDisposeHandle isSendWire (onDelta reg d).2
    ∧ precedes isSendWire isFireTextEditorRemove (onDelta reg d).2 := by
  have hA := processAdds_events d.addedEditors reg
  have hR := processRemoves_events d.removedEditors (processAdds reg d.addedEditors).1
  rw [onDelta_trace]
  refine ⟨?_, ?_, ?_⟩
  · rw [List.append_assoc]
    apply precedes_of_append
    · intro e he
      exact (addHandle_kind (hA e he)).1
    · intro e he
      rcases List.mem_append.mp he with he | he
      · exact (disposeHandle_kind (hR e he)).1
      · simp only [List.mem_cons, List.not_mem_nil, or_false] at he
        rcases he with rfl | rfl | rfl | rfl | rfl <;> rfl
  · apply precedes_of_append
    · intro e he
      rcases List.mem_append.mp he with he | he
      · exact (addHandle_kind (hA e he)).2.1
      · exact (disposeHandle_kind (hR e he)).2.1
    · intro e he
      simp only [List.mem_cons, List.not_mem_nil, or_false] at he
      rcases he with rfl | rfl | rfl | rfl | rfl <;> rfl
  · rw [List.append_cons]
    apply precedes_of_append
    · intro e he
      rcases List.mem_append.mp he with he | he
      · rcases List.mem_append.mp he with he | he
        · exact (addHandle_kind (hA e he)).2.2
        · exact (disposeHandle_kind (hR e he)).2.2
      · rcases List.mem_singleton.mp he with rfl
        rfl
    · intro e he
      simp only [List.mem_cons, List.not_mem_nil, or_false] at he
      rcases he with rfl | rfl | rfl | rfl <;> rfl

/-- Counterexample for C4 as stated: with one registered handle being
removed, the wire payload is not projected before the handle is disposed —
the dispatcher disposes first and sends afterwards. -/
theorem onDelta_wire_before_dispose_counterexample :
    ¬ precedes isSendWire isDisposeHandle
      (onDelta ([("E1,a")])
        { removedDocuments := []
          addedDocuments := []
          removedEditors :=
            [{ editor := { id := ("E1"), model := none, focused := false }
               document := { uri := ("a"), isTooLargeForHavingARichMode := false } }]
          addedEditors := []
          oldActiveEditor := JSString.undef
          newActiveEditor := JSString.undef }).2 := by
  decide

/-- Witness for the amended C4 on the same non-empty delta. -/
theorem onDelta_ordering_witness :
    (DocumentAndEditorStateDelta.mk [] []
        [{ editor := { id := ("E1"), model := none, focused := false }
           document := { uri := ("a"), isTooLargeForHavingARichMode := false } }]
        [] JSString.undef JSString.undef).isEmpty = false
    ∧ precedes isDisposeHandle isSendWire
      (onDelta ([("E1,a")])
        (DocumentAndEditorStateDelta.mk [] []
          [{ editor := { id := ("E1"), model := none, focused := false }
             document := { uri := ("a"), isTooLargeForHavingARichMode := false } }]
          [] JSString.undef JSString.undef)).2 := by
  constructor
  · decide
  · exact (onDelta_ordering ([("E1,a")]) _ (by decide)).2.1

/-- C3: evaluation of the code at the failing input.  After one editor-add
cycle, disposing the tracker disposes all four top-level subscriptions but
leaves the per-editor listener held in _toDisposeOnEditorRemove live: one
live subscription remains, not zero. -/
theorem dispose_leaves_editor_subscription_live :
    ((TrackerResources.init.onDidAddEditor ("E1")).disposeTracker).liveEditorSubCount
      = 1
    ∧ ((TrackerResources.init.onDidAddEditor ("E1")).disposeTracker).liveTopLevelCount
      = 0 := by
  decide

/-- C5: a model flagged too large never appears in the snapshot's document
sequence, and no snapshot binding's editor is an editor whose current model
is absent or flagged too large. -/
theorem snapshot_excludes_too_large (w : WorldState) :
    (∀ m : Model, m.isTooLargeForHavingARichMode = true →
      m ∉ (newSnapshot w).documents)
    ∧ (∀ e : Editor,
        (e.model = none
          ∨ ∃ m, e.model = some m ∧ m.isTooLargeForHavingARichMode = true) →
        ∀ b ∈ (newSnapshot w).editors, b.editor ≠ e) := by
  constructor
  · intro m hm hmem
    have h1 : (newSnapshot w).documents =
        sortByCmp compareModels
          (w.models.filter (fun x => !x.isTooLargeForHavingARichMode)) := rfl
    rw [h1] at hmem
    have h2 := (List.mem_filter.mp ((mem_sortByCmp _ _ m).mp hmem)).2
    rw [hm] at h2
    cases h2
  · intro e he b hb hbe
    have h1 : (newSnapshot w).editors =
        sortByCmp compareEditors (scanEditors w.codeEditors JSString.null).1 := rfl
    rw [h1] at hb
    have hs := scanEditors_sound w.codeEditors JSString.null b
      ((mem_sortByCmp _ _ b).mp hb)
    rcases hs with ⟨_, hmodel, hlarge⟩
    rw [hbe] at hmodel
    rcases he with he | ⟨m, hm, hml⟩
    · rw [he] at hmodel
      cases hmodel
    · rw [hm] at hmodel
      injection hmodel with hmodel
      rw [← hmodel] at hlarge
      rw [hml] at hlarge
      cases hlarge

/-- Witness for C5: a too-large document displayed by an editor is out of
the snapshot and that editor produces no binding, while a sibling editor on
a small document does. -/
theorem snapshot_excludes_too_large_witness :
    (Model.mk ("big") true).isTooLargeForHavingARichMode = true
    ∧ Model.mk ("big") true ∉
        (newSnapshot (WorldState.mk [Model.mk ("big") true]
          [Editor.mk ("E1") (some (Model.mk ("big") true)) false,
           Editor.mk ("E2") (some (Model.mk ("ok") false)) false]
          none)).documents
    ∧ EditorAndModel.mk (Editor.mk ("E2") (some (Model.mk ("ok") false)) false)
        (Model.mk ("ok") false) ∈
        (newSnapshot (WorldState.mk [Model.mk ("big") true]
          [Editor.mk ("E1") (some (Model.mk ("big") true)) false,
           Editor.mk ("E2") (some (Model.mk ("ok") false)) false]
          none)).editors
    ∧ (EditorAndModel.mk (Editor.mk ("E2") (some (Model.mk ("ok") false)) false)
        (Model.mk ("ok") false)).editor
        ≠ Editor.mk ("E1") (some (Model.mk ("big") true)) false := by
  refine ⟨rfl, ?_, ?_, ?_⟩
  · exact (snapshot_excludes_too_large _).1 _ rfl
  · decide
  · exact (snapshot_excludes_too_large
        (WorldState.mk [Model.mk ("big") true]
          [Editor.mk ("E1") (some (Model.mk ("big") true)) false,
           Editor.mk ("E2") (some (Model.mk ("ok") false)) false]
          none)).2
      (Editor.mk ("E1") (some (Model.mk ("big") true)) false)
      (Or.inr ⟨Model.mk ("big") true, rfl, rfl⟩) _ (by decide)

/-- C6: active-binding resolution: a focused filtered editor's binding id
wins; otherwise the workbench candidate (code editor directly, diff editor
via its modified side) matched against the filtered bindings decides; and
with neither path the active value stays null (absent). -/
theorem active_resolution (w : WorldState) :
    ((∃ b ∈ (scanEditors w.codeEditors JSString.null).1, b.editor.focused = true) →
      ∃ b ∈ (scanEditors w.codeEditors JSString.null).1, b.editor.focused = true ∧
        (newSnapshot w).activeEditor = JSString.str b.id)
    ∧ ((∀ b ∈ (scanEditors w.codeEditors JSString.null).1, b.editor.focused = false) →
        ((∀ (c : Editor) (b : EditorAndModel), workbenchCandidate w = some c →
            (scanEditors w.codeEditors JSString.null).1.find?
              (fun x => x.editor == c) = some b →
            (newSnapshot w).activeEditor = JSString.str b.id)
          ∧ (workbenchCandidate w = none →
              (newSnapshot w).activeEditor = JSString.null)
          ∧ (∀ c : Editor, workbenchCandidate w = some c →
              (scanEditors w.codeEditors JSString.null).1.find?
                (fun x => x.editor == c) = none →
              (newSnapshot w).activeEditor = JSString.null))) := by
  have hact : (newSnapshot w).activeEditor =
      resolveActive w (scanEditors w.codeEditors JSString.null).1
        (scanEditors w.codeEditors JSString.null).2 := rfl
  rcases scanEditors_act w.codeEditors JSString.null
    with ⟨b0, hb0, hf0, ha0⟩ | ⟨hnf, ha0⟩
  · constructor
    · intro _
      refine ⟨b0, hb0, hf0, ?_⟩
      rw [hact, ha0]
      simp [resolveActive, jsFalsy_bindingId b0]
    · intro hall
      have := hall b0 hb0
      rw [hf0] at this
      cases this
  · constructor
    · intro ⟨b, hb, hf⟩
      have := hnf b hb
      rw [hf] at this
      cases this
    · intro _
      refine ⟨?_, ?_, ?_⟩
      · intro c b hc hfind
        rw [hact, ha0]
        simp [resolveActive, jsFalsy, hc, hfind]
      · intro hc
        rw [hact, ha0]
        simp [resolveActive, jsFalsy, hc]
      · intro c hc hfind
        rw [hact, ha0]
        simp [resolveActive, jsFalsy, hc, hfind]

/-- Witness for C6: no focused editor and no workbench candidate leaves the
active value null. -/
theorem active_resolution_witness :
    (newSnapshot (WorldState.mk [] [] none)).activeEditor = JSString.null := by
  exact ((active_resolution (WorldState.mk [] [] none)).2
    (fun b hb => by cases hb)).2.1 rfl

/-- The state returned by $acceptActiveEditorAndVisibleEditors: the editor
map untouched, the active id and visible ids set to the accepted values
(when unchanged the stored values already equal them). -/
theorem acceptActiveAndVisible_state (s : ExtHostEditorsState)
    (idArg : Option String) (vis : List String) :
    (acceptActiveEditorAndVisibleEditors s idArg vis).1 =
      ExtHostEditorsState.mk s.editors idArg vis := by
  unfold acceptActiveEditorAndVisibleEditors
  by_cases h1 : s.visibleEditorIds = vis
  · by_cases h2 : s.activeEditorId = idArg
    · simp [h1, h2]
    · simp [h1, h2]
  · by_cases h2 : s.activeEditorId = idArg
    · simp [h1, h2]
    · simp [h1, h2]

theorem acceptActiveAndVisible_events (s : ExtHostEditorsState)
    (idArg : Option String) (vis : List String) :
    ∀ e ∈ (acceptActiveEditorAndVisibleEditors s idArg vis).2,
      isFireEvent e = true := by
  intro e he
  unfold acceptActiveEditorAndVisibleEditors at he
  rcases List.mem_append.mp he with h | h
  · split at h
    · rcases List.mem_singleton.mp h with rfl
      rfl
    · cases h
  · split at h
    · rcases List.mem_singleton.mp h with rfl
      rfl
    · cases h

/-- C10: after $acceptTextEditorRemove of a tracked id, the id is out of
the visible ids, the active id is never the removed id and is absent when
the removed editor was active, the id is deleted from the editor map, and
the visible-changed and active-changed events for the transition all fire
before the editor handle is disposed and deleted. -/
theorem acceptTextEditorRemove_contract (s : ExtHostEditorsState) (id : String)
    (htracked : id ∈ s.editors) :
    id ∉ (acceptTextEditorRemove s id).1.visibleEditorIds
    ∧ (acceptTextEditorRemove s id).1.activeEditorId ≠ some id
    ∧ (s.activeEditorId = some id →
        (acceptTextEditorRemove s id).1.activeEditorId = none)
    ∧ id ∉ (acceptTextEditorRemove s id).1.editors
    ∧ ∃ evs, (acceptTextEditorRemove s id).2 =
        evs ++ [ExtHostEvent.disposeEditor id, ExtHostEvent.deleteEditor id]
      ∧ ∀ e ∈ evs, isFireEvent e = true := by
  by_cases hAct : s.activeEditorId = some id
  · have hr : acceptTextEditorRemove s id =
        (ExtHostEditorsState.mk
          ((acceptActiveEditorAndVisibleEditors s none
            (s.visibleEditorIds.filter (fun v => v ≠ id))).1.editors.filter
              (fun e => e ≠ id))
          (acceptActiveEditorAndVisibleEditors s none
            (s.visibleEditorIds.filter (fun v => v ≠ id))).1.activeEditorId
          (acceptActiveEditorAndVisibleEditors s none
            (s.visibleEditorIds.filter (fun v => v ≠ id))).1.visibleEditorIds,
         (acceptActiveEditorAndVisibleEditors s none
            (s.visibleEditorIds.filter (fun v => v ≠ id))).2
           ++ [ExtHostEvent.disposeEditor id, ExtHostEvent.deleteEditor id]) := by
      simp only [acceptTextEditorRemove]
      rw [if_pos hAct]
    rw [hr, acceptActiveAndVisible_state]
    refine ⟨?_, ?_, ?_, ?_, ?_⟩
    · intro h
      have := (List.mem_filter.mp h).2
      simp at this
    · intro h
      cases h
    · intro _
      rfl
    · intro h
      have := (List.mem_filter.mp h).2
      simp at this
    · refine ⟨_, rfl, acceptActiveAndVisible_events s none _⟩
  · have hr : acceptTextEditorRemove s id =
        (ExtHostEditorsState.mk
          ((acceptActiveEditorAndVisibleEditors s s.activeEditorId
            (s.visibleEditorIds.filter (fun v => v ≠ id))).1.editors.filter
              (fun e => e ≠ id))
          (acceptActiveEditorAndVisibleEditors s s.activeEditorId
            (s.visibleEditorIds.filter (fun v => v ≠ id))).1.activeEditorId
          (acceptActiveEditorAndVisibleEditors s s.activeEditorId
            (s.visibleEditorIds.filter (fun v => v ≠ id))).1.visibleEditorIds,
         (acceptActiveEditorAndVisibleEditors s s.activeEditorId
            (s.visibleEditorIds.filter (fun v => v ≠ id))).2
           ++ [ExtHostEvent.disposeEditor id, ExtHostEvent.deleteEditor id]) := by
      simp only [acceptTextEditorRemove]
      rw [if_neg hAct]
    rw [hr, acceptActiveAndVisible_state]
    refine ⟨?_, ?_, ?_, ?_, ?_⟩
    · intro h
      have := (List.mem_filter.mp h).2
      simp at this
    · exact hAct
    · intro h
      exact absurd h hAct
    · intro h
      have := (List.mem_filter.mp h).2
      simp at this
    · refine ⟨_, rfl, acceptActiveAndVisible_events s s.activeEditorId _⟩

/-- Witness for C10: removing the tracked, visible and active editor E1. -/
theorem acceptTextEditorRemove_contract_witness :
    (("E1" : String) ∈ ["E1"])
    ∧ ("E1" : String) ∉ (acceptTextEditorRemove
        (ExtHostEditorsState.mk ["E1"] (some ("E1")) ["E1"]) ("E1")).1.visibleEditorIds
    ∧ (acceptTextEditorRemove
        (ExtHostEditorsState.mk ["E1"] (some ("E1")) ["E1"]) ("E1")).1.activeEditorId
        = none := by
  refine ⟨by decide, ?_, ?_⟩
  · exact (acceptTextEditorRemove_contract
      (ExtHostEditorsState.mk ["E1"] (some ("E1")) ["E1"]) ("E1") (by decide)).1
  · exact (acceptTextEditorRemove_contract
      (ExtHostEditorsState.mk ["E1"] (some ("E1")) ["E1"]) ("E1") (by decide)).2.2.1 rfl

/-- C1: for snapshots whose sequences are duplicate-free and sorted by the
comparators, applying the computed delta back onto the before snapshot
reproduces the after snapshot: a document URI is in B exactly when it is in
A and not removed, or added; and likewise for the editor-binding keys. -/
theorem compute_round_trip (A B : DocumentAndEditorState)
    (hAd : A.documents.Pairwise (fun a b => compareModels a b = Ordering.lt))
    (hBd : B.documents.Pairwise (fun a b => compareModels a b = Ordering.lt))
    (hAe : A.editors.Pairwise (fun a b => compareEditors a b = Ordering.lt))
    (hBe : B.editors.Pairwise (fun a b => compareEditors a b = Ordering.lt)) :
    (∀ u : String,
      u ∈ docUris B.documents ↔
        ((u ∈ docUris A.documents ∧
            u ∉ docUris (DocumentAndEditorState.compute (some A) B).removedDocuments)
          ∨ u ∈ docUris (DocumentAndEditorState.compute (some A) B).addedDocuments))
    ∧ (∀ p : Lex (String × String),
        p ∈ editorKeys B.editors ↔
          ((p ∈ editorKeys A.editors ∧
              p ∉ editorKeys
                (DocumentAndEditorState.compute (some A) B).removedEditors)
            ∨ p ∈ editorKeys
                (DocumentAndEditorState.compute (some A) B).addedEditors)) := by
  have hAd' : A.documents.Pairwise (fun a b => Model.uri a < Model.uri b) :=
    hAd.imp (fun h => compareModels_lt_iff.mp h)
  have hBd' : B.documents.Pairwise (fun a b => Model.uri a < Model.uri b) :=
    hBd.imp (fun h => compareModels_lt_iff.mp h)
  have hAe' : A.editors.Pairwise (fun a b => editorKey a < editorKey b) :=
    hAe.imp (fun h => compareEditors_lt_iff.mp h)
  have hBe' : B.editors.Pairwise (fun a b => editorKey a < editorKey b) :=
    hBe.imp (fun h => compareEditors_lt_iff.mp h)
  have hremD := mem_deltaMerge_removed Model.uri compareModels
    (fun a b => compareModels_lt_iff) (fun a b => compareModels_eq_iff)
    A.documents B.documents hAd' hBd'
  have haddD := mem_deltaMerge_added Model.uri compareModels
    (fun a b => compareModels_lt_iff) (fun a b => compareModels_eq_iff)
    A.documents B.documents hAd' hBd'
  have hremE := mem_deltaMerge_removed editorKey compareEditors
    (fun a b => compareEditors_lt_iff) (fun a b => compareEditors_eq_iff)
    A.editors B.editors hAe' hBe'
  have haddE := mem_deltaMerge_added editorKey compareEditors
    (fun a b => compareEditors_lt_iff) (fun a b => compareEditors_eq_iff)
    A.editors B.editors hAe' hBe'
  have hmemRemD : ∀ u : String,
      u ∈ docUris (DocumentAndEditorState.compute (some A) B).removedDocuments ↔
        (u ∈ docUris A.documents ∧ u ∉ docUris B.documents) := by
    intro u
    constructor
    · intro hu
      rcases List.mem_map.mp hu with ⟨x, hx, rfl⟩
      rcases (hremD x).mp hx with ⟨hxa, hnx⟩
      exact ⟨List.mem_map_of_mem _ hxa, hnx⟩
    · rintro ⟨hu, hnu⟩
      rcases List.mem_map.mp hu with ⟨x, hx, rfl⟩
      exact List.mem_map_of_mem _ ((hremD x).mpr ⟨hx, hnu⟩)
  have hmemAddD : ∀ u : String,
      u ∈ docUris (DocumentAndEditorState.compute (some A) B).addedDocuments ↔
        (u ∈ docUris B.documents ∧ u ∉ docUris A.documents) := by
    intro u
    constructor
    · intro hu
      rcases List.mem_map.mp hu with ⟨x, hx, rfl⟩
      rcases (haddD x).mp hx with ⟨hxb, hnx⟩
      exact ⟨List.mem_map_of_mem _ hxb, hnx⟩
    · rintro ⟨hu, hnu⟩
      rcases List.mem_map.mp hu with ⟨x, hx, rfl⟩
      exact List.mem_map_of_mem _ ((haddD x).mpr ⟨hx, hnu⟩)
  have hmemRemE : ∀ p : Lex (String × String),
      p ∈ editorKeys (DocumentAndEditorState.compute (some A) B).removedEditors ↔
        (p ∈ editorKeys A.editors ∧ p ∉ editorKeys B.editors) := by
    intro p
    constructor
    · intro hp
      rcases List.mem_map.mp hp with ⟨x, hx, rfl⟩
      rcases (hremE x).mp hx with ⟨hxa, hnx⟩
      exact ⟨List.mem_map_of_mem _ hxa, hnx⟩
    · rintro ⟨hp, hnp⟩
      rcases List.mem_map.mp hp with ⟨x, hx, rfl⟩
      exact List.mem_map_of_mem _ ((hremE x).mpr ⟨hx, hnp⟩)
  have hmemAddE : ∀ p : Lex (String × String),
      p ∈ editorKeys (DocumentAndEditorState.compute (some A) B).addedEditors ↔
        (p ∈ editorKeys B.editors ∧ p ∉ editorKeys A.editors) := by
    intro p
    constructor
    · intro hp
      rcases List.mem_map.mp hp with ⟨x, hx, rfl⟩
      rcases (haddE x).mp hx with ⟨hxb, hnx⟩
      exact ⟨List.mem_map_of_mem _ hxb, hnx⟩
    · rintro ⟨hp, hnp⟩
      rcases List.mem_map.mp hp with ⟨x, hx, rfl⟩
      exact List.mem_map_of_mem _ ((haddE x).mpr ⟨hx, hnp⟩)
  constructor
  · intro u
    rw [hmemRemD u, hmemAddD u]
    tauto
  · intro p
    rw [hmemRemE p, hmemAddE p]
    tauto

/-- Witness for C1 on two concrete sorted snapshots. -/
theorem compute_round_trip_witness :
    sampleStateA.documents.Pairwise (fun a b => compareModels a b = Ordering.lt)
    ∧ sampleStateB.documents.Pairwise (fun a b => compareModels a b = Ordering.lt)
    ∧ (("b" : String) ∈ docUris sampleStateB.documents ↔
        ((("b" : String) ∈ docUris sampleStateA.documents ∧
            ("b" : String) ∉ docUris
              (DocumentAndEditorState.compute (some sampleStateA)
                sampleStateB).removedDocuments)
          ∨ ("b" : String) ∈ docUris
              (DocumentAndEditorState.compute (some sampleStateA)
                sampleStateB).addedDocuments))
    ∧ (toLex (("E2" : String), ("a" : String)) ∈ editorKeys sampleStateB.editors ↔
        ((toLex (("E2" : String), ("a" : String)) ∈ editorKeys sampleStateA.editors ∧
            toLex (("E2" : String), ("a" : String)) ∉ editorKeys
              (DocumentAndEditorState.compute (some sampleStateA)
                sampleStateB).removedEditors)
          ∨ toLex (("E2" : String), ("a" : String)) ∈ editorKeys
              (DocumentAndEditorState.compute (some sampleStateA)
                sampleStateB).addedEditors)) := by
  refine ⟨by decide, by decide, ?_, ?_⟩
  · exact (compute_round_trip sampleStateA sampleStateB
      (by decide) (by decide) (by decide) (by decide)).1 ("b")
  · exact (compute_round_trip sampleStateA sampleStateB
      (by decide) (by decide) (by decide) (by decide)).2
      (toLex (("E2" : String), ("a" : String)))
